import Mathlib

/-!
# Verification of the ICL `PositionTracker` (ICLBlob/src/PositionTracker.cpp)

Shallow embedding of the position-tracking core: the three-frame history
store, freshness-gated motion prediction, Euclidean cost-matrix builder,
row deletion, identity minting, and the `pushData` / `getID` operations.

The tracker is instantiated in the source only at `valueType = icl32s`
(32-bit signed int); scalar values are modelled as unbounded `Int`
(coordinate arithmetic in the claims stays far from the 32-bit range).
The Hungarian assignment solver (`HungarianAlgorithm.h`) is an external
collaborator and is modelled as a function parameter `hung`; its contract
(an exact solver returns a permutation of `0..dim-1`) appears as a
hypothesis where needed.
-/

namespace PositionTracker

/-- `BLIND_VALUE` sentinel used to pad data when batch sizes differ
(`const int BLIND_VALUE = 9999`). -/
def BLIND_VALUE : Int := 9999

/-- Modelled from the spec: `Extrapolator.h` is not under `src/`.
Two-sample linear extrapolation, spec section 4.1: `b + (b - a)`. -/
def extrapolate2 (a b : Int) : Int := b + (b - a)

/-- Modelled from the spec: `Extrapolator.h` is not under `src/`.
Three-sample second-difference extrapolation, spec section 4.1:
`c + (c-b) + ((c-b) - (b-a))`. -/
def extrapolate3 (a b c : Int) : Int := c + (c - b) + ((c - b) - (b - a))

/-- `predict(dim, data, good)`: per-slot prediction over one axis.
`data` is the 3-frame history deque of that axis (index 0 oldest, 2 newest);
the switch on `good[y]` selects the extrapolation order
(`case 1` zero-order, `case 2` linear, `default` quadratic). -/
def predict (dim : Nat) (data : List (List Int)) (good : List Int) : List Int :=
  (List.range dim).map (fun y =>
    let g := good.getD y 0
    if g = 1 then (data.getD 2 []).getD y 0
    else if g = 2 then
      extrapolate2 ((data.getD 1 []).getD y 0) ((data.getD 2 []).getD y 0)
    else
      extrapolate3 ((data.getD 0 []).getD y 0) ((data.getD 1 []).getD y 0)
        ((data.getD 2 []).getD y 0))

/-- One entry of the distance matrix:
`(valueType)sqrt(pow(aX[j]-bX[i],2) + pow(aY[j]-bY[i],2))` at
`valueType = icl32s`, i.e. the C truncation of the double `sqrt` of an
exact nonnegative integer, which is the integer square root. -/
def distEntry (ax ay bx byy : Int) : Int :=
  Int.ofNat (Nat.sqrt ((ax - bx) ^ 2 + (ay - byy) ^ 2).toNat)

/-- `createDistMat(a, b)` body: `dim = a[X].size()`; the `dim × dim` matrix
with `m[i][j] = distEntry(a[X][j], a[Y][j], b[X][i], b[Y][i])`
(`a` = predicted, `b` = observed at every call site). -/
def createDistMat (aX aY bX bY : List Int) : List (List Int) :=
  let dim := aX.length
  (List.range dim).map (fun i =>
    (List.range dim).map (fun j =>
      distEntry (aX.getD j 0) (aY.getD j 0) (bX.getD i 0) (bY.getD i 0)))

/-- `createDistMat` together with its entry precondition
`ICLASSERT( a[X].size() == b[X].size() )`.  Modelled from the spec:
`iclMacros.h` is not under `src/`; per spec sections 4.2 and 7 a failed
assertion is a precondition violation, modelled as `none`. -/
def createDistMatChecked (aX aY bX bY : List Int) : Option (List (List Int)) :=
  if aX.length = bX.length then some (createDistMat aX aY bX bY) else none

/-- `removeElemsFromVector` inner loops: walk `v` with index `vidx` and the
sorted deletion list `rows`; `rows[r] != vidx` keeps `v[vidx]`, otherwise
advances `r`; once `rows` is exhausted the remainder of `v` is kept. -/
def removeElemsAux {α : Type} : List α → Nat → List Nat → List α
  | [], _, _ => []
  | x :: xs, vidx, [] => x :: removeElemsAux xs (vidx + 1) []
  | x :: xs, vidx, r :: rs =>
    if r ≠ vidx then x :: removeElemsAux xs (vidx + 1) (r :: rs)
    else removeElemsAux xs (vidx + 1) rs

/-- `removeElemsFromVector(v, rows)` (rows must be sorted). -/
def removeElemsFromVector {α : Type} (v : List α) (rows : List Nat) : List α :=
  removeElemsAux v 0 rows

/-- The `while(lut.find(id) != lut.end()) id++;` scan of `get_n_new_ids`,
with explicit fuel (the scan can step at most `lut.length` times). -/
def firstFreeAux : Nat → List Int → Int → Int
  | 0, _, id => id
  | fuel + 1, lut, id => if id ∈ lut then firstFreeAux fuel lut (id + 1) else id

/-- The body of the minting loop of `get_n_new_ids`: mint `n` ids, keeping
the running lookup set `lut` and the persistent scan cursor `id`. -/
def get_n_new_ids_go : Nat → List Int → Int → List Int
  | 0, _, _ => []
  | n + 1, lut, id =>
    let id2 := firstFreeAux (lut.length + 1) lut id
    id2 :: get_n_new_ids_go n (id2 :: lut) id2

/-- `get_n_new_ids(currentIDS, n)`: mint `n` fresh ids starting the scan
cursor at 0, with `lut` initialised to the current ids. -/
def get_n_new_ids (currentIDS : List Int) (n : Nat) : List Int :=
  get_n_new_ids_go n currentIDS 0

/-- The reordering loop of `push_and_rearrange_data`:
`arrangedData[assignment[i]] = newData[i]` for `i = 0..dim-1`, starting
from `vector<valueType>(dim)` (zero-initialised). -/
def arrange (dim : Nat) (asg : List Nat) (newD : List Int) : List Int :=
  (List.range dim).foldl
    (fun acc i => acc.set (asg.getD i 0) (newD.getD i 0))
    (List.replicate dim 0)

/-- `push_and_rearrange_data(dim, data, assignment, newData)` on one axis:
`push_back` the rearranged frame, `pop_front` the oldest. -/
def pushAndRearrangeAxis (dim : Nat) (d : List (List Int)) (asg : List Nat)
    (newD : List Int) : List (List Int) :=
  (d ++ [arrange dim asg newD]).tail

/-- The backfill loop of `push_data_intern_diff_ltz` on one frame:
`f[start + i] = vals[i]` for `i = 0..k-1`. -/
def backfill (f : List Int) (start : Nat) (vals : List Int) (k : Nat) : List Int :=
  (List.range k).foldl (fun acc i => acc.set (start + i) (vals.getD i 0)) f

/-- The new-column collection of `push_data_intern_diff_ltz`: the indices
`x < dim` with `assignment[x] >= dim - DIFF`. -/
def growCols (asg : List Nat) (dim k : Nat) : List Nat :=
  (List.range dim).filter (fun x => dim - k ≤ asg.getD x 0)

/-- The deletion rows of `push_data_intern_diff_gtz`:
`delRows = [assignment[dim-1], ..., assignment[dim-DIFF]]`, then sorted
ascending (`std::sort`). -/
def delRowsOf (asg : List Nat) (dim k : Nat) : List Nat :=
  List.insertionSort (· ≤ ·) ((List.range k).map (fun i => asg.getD (dim - 1 - i) 0))

/-- The member state of `PositionTracker<icl32s>`: the two 3-frame history
deques `m_matData[X]`, `m_matData[Y]`, the identity vector `m_vecIDs`, the
last assignment `m_vecCurrentAssignment` and the freshness counters
`m_vecGoodDataCount`. -/
structure PTState where
  dataX : List (List Int)
  dataY : List (List Int)
  ids : List Int
  assignment : List Nat
  good : List Int
deriving Repr, DecidableEq

/-- Modelled from the spec: `PositionTracker.h` is not under `src/`; per
spec section 6 construction takes no parameters and the state starts
`Uninitialized`, which `pushData` detects as `m_matData[X].size() == 0`:
all containers empty. -/
def freshPT : PTState := ⟨[], [], [], [], []⟩

/-- Modelled from the spec: error taxonomy of spec section 7; a failed
`ICLASSERT_RETURN` precondition in `pushData` is an `InvalidArgument`
failure. -/
inductive PTError where
  | invalidArgument
deriving Repr, DecidableEq

/-- `push_data_intern_first_step`: seed all three frames of both axes with
the pushed batch, set `ids[i] = i` (after `resize`), and append one
freshness counter `1` per point. -/
def push_data_intern_first_step (s : PTState) (newX newY : List Int) : PTState :=
  { s with
    dataX := s.dataX ++ [newX, newX, newX]
    dataY := s.dataY ++ [newY, newY, newY]
    ids := (List.range newX.length).map (fun i => Int.ofNat i)
    good := s.good ++ List.replicate newX.length 1 }

/-- `push_data_intern_diff_zero`: predict, build the cost matrix, solve,
rearrange-and-push, increment every freshness counter. -/
def push_data_intern_diff_zero (hung : List (List Int) → List Nat) (dim : Nat)
    (s : PTState) (newX newY : List Int) : PTState :=
  let predX := predict dim s.dataX s.good
  let predY := predict dim s.dataY s.good
  let asg := hung (createDistMat predX predY newX newY)
  { s with
    dataX := pushAndRearrangeAxis dim s.dataX asg newX
    dataY := pushAndRearrangeAxis dim s.dataY asg newY
    assignment := asg
    good := s.good.map (· + 1) }

/-- `push_data_intern_diff_gtz` (`DIFF > 0`, shrink): pad the new batch
with `DIFF` sentinels, predict, solve, rearrange-and-push, then delete the
rows named by the tail entries of the assignment (sorted ascending) from
all 3 frames of both axes, from `ids` and from `good`, and finally
increment every surviving freshness counter. -/
def push_data_intern_diff_gtz (hung : List (List Int) → List Nat) (DIFF : Nat)
    (s : PTState) (newX newY : List Int) : PTState :=
  let nX := newX ++ List.replicate DIFF BLIND_VALUE
  let nY := newY ++ List.replicate DIFF BLIND_VALUE
  let dim := (s.dataX.getD 0 []).length
  let predX := predict dim s.dataX s.good
  let predY := predict dim s.dataY s.good
  let asg := hung (createDistMat predX predY nX nY)
  let dX1 := pushAndRearrangeAxis dim s.dataX asg nX
  let dY1 := pushAndRearrangeAxis dim s.dataY asg nY
  let delRows := delRowsOf asg dim DIFF
  { s with
    dataX := dX1.map (fun f => removeElemsFromVector f delRows)
    dataY := dY1.map (fun f => removeElemsFromVector f delRows)
    ids := removeElemsFromVector s.ids delRows
    assignment := asg
    good := (removeElemsFromVector s.good delRows).map (· + 1) }

/-- `push_data_intern_diff_ltz` (`DIFF < 0`, grow; `k = -DIFF`): pad every
frame with `k` sentinels, predict with the freshness vector temporarily
extended by `k` ones, solve on the enlarged dimension, collect the
new-observation columns matched into the padded region, mint `k` fresh
ids, backfill the padded history cells with the collected values (freshness
0 for the new slots), increment every freshness counter, and finally
rearrange-and-push.  (The source backfills with the `i`-loop outside the
frame loop; the writes of distinct frames are disjoint, so backfilling one
frame at a time is the same update.) -/
def push_data_intern_diff_ltz (hung : List (List Int) → List Nat) (k : Nat)
    (s : PTState) (newX newY : List Int) : PTState :=
  let dX := s.dataX.map (fun f => f ++ List.replicate k BLIND_VALUE)
  let dY := s.dataY.map (fun f => f ++ List.replicate k BLIND_VALUE)
  let dim := (dX.getD 0 []).length
  let goodTmp := s.good ++ List.replicate k 1
  let predX := predict dim dX goodTmp
  let predY := predict dim dY goodTmp
  let asg := hung (createDistMat predX predY newX newY)
  let cols := growCols asg dim k
  let newColsX := cols.map (fun x => newX.getD (asg.getD x 0) 0)
  let newColsY := cols.map (fun x => newY.getD (asg.getD x 0) 0)
  let dX2 := dX.map (fun f => backfill f (dim - k) newColsX k)
  let dY2 := dY.map (fun f => backfill f (dim - k) newColsY k)
  { s with
    dataX := pushAndRearrangeAxis dim dX2 asg newX
    dataY := pushAndRearrangeAxis dim dY2 asg newY
    ids := s.ids ++ get_n_new_ids s.ids k
    assignment := asg
    good := ((s.good ++ List.replicate k 0).map (· + 1)) }

/-- `PositionTracker::pushData(dataXs, dataYs)`:
`ICLASSERT_RETURN(dataXs.size() > 0)`, `ICLASSERT_RETURN(sizes equal)`
(failure leaves the members untouched), then dispatch on the sign of
`DIFF = DATA_MATRIX_HEIGHT - NEW_DATA_DIMENSION`, with the empty history
deque marking the first-ever push. -/
def pushData (hung : List (List Int) → List Nat) (s : PTState)
    (xs ys : List Int) : PTState × Option PTError :=
  if xs.length = 0 then (s, some PTError.invalidArgument)
  else if xs.length ≠ ys.length then (s, some PTError.invalidArgument)
  else if s.dataX.length = 0 then (push_data_intern_first_step s xs ys, none)
  else if (s.dataX.getD 0 []).length < xs.length then
    (push_data_intern_diff_ltz hung (xs.length - (s.dataX.getD 0 []).length) s xs ys, none)
  else if xs.length < (s.dataX.getD 0 []).length then
    (push_data_intern_diff_gtz hung ((s.dataX.getD 0 []).length - xs.length) s xs ys, none)
  else (push_data_intern_diff_zero hung (s.dataX.getD 0 []).length s xs ys, none)

/-- `PositionTracker::getID(x, y)`: scan the newest frame
(`m_matData[·][2]`) for the first exact coordinate match and return the
id at that slot, else `-1`.  On a state whose history deque has fewer than
3 frames the access `m_matData[X][2]` is out of bounds (C++ undefined
behaviour), modelled as `none`; a defined return `r` is `some r`. -/
def getID (s : PTState) (x y : Int) : Option Int :=
  match s.dataX.get? 2, s.dataY.get? 2 with
  | some rX, some rY =>
    match (List.range rX.length).find?
        (fun i => rX.getD i 0 == x && rY.getD i 0 == y) with
    | some i => some (s.ids.getD i 0)
    | none => some (-1)
  | _, _ => none

/-! ## Generic list helpers -/

theorem getD_map_range {α : Type} (f : Nat → α) (d : α) {n y : Nat} (hy : y < n) :
    ((List.range n).map f).getD y d = f y := by
  have h1 : y < ((List.range n).map f).length := by simpa
  rw [List.getD_eq_getElem _ _ h1]
  simp

theorem map_getD_range {α : Type} (l : List α) (d : α) :
    (List.range l.length).map (fun i => l.getD i d) = l := by
  apply List.ext_getElem
  · simp
  · intro i h1 h2
    simp only [List.getElem_map, List.getElem_range]
    exact List.getD_eq_getElem l d h2

/-! ## `arrange` (the reorder loop of `push_and_rearrange_data`) -/

theorem foldl_set_length {α : Type} (L : List Nat) (asg : List Nat)
    (newD : List α) (d : α) (init : List α) :
    (L.foldl (fun acc i => acc.set (asg.getD i 0) (newD.getD i d)) init).length
      = init.length := by
  induction L generalizing init with
  | nil => rfl
  | cons j rest ih => simpa using ih (init.set (asg.getD j 0) (newD.getD j d))

theorem length_arrange (dim : Nat) (asg : List Nat) (newD : List Int) :
    (PositionTracker.arrange dim asg newD).length = dim := by
  unfold PositionTracker.arrange
  rw [foldl_set_length]
  simp

theorem foldl_set_getD_not_mem {α : Type} (L : List Nat) (asg : List Nat)
    (newD : List α) (d : α) (init : List α) (t : Nat)
    (h : ∀ j ∈ L, asg.getD j 0 ≠ t) :
    (L.foldl (fun acc i => acc.set (asg.getD i 0) (newD.getD i d)) init).getD t d
      = init.getD t d := by
  induction L generalizing init with
  | nil => rfl
  | cons j rest ih =>
    simp only [List.foldl_cons]
    rw [ih _ (fun j' hj' => h j' (List.mem_cons_of_mem _ hj'))]
    rcases Nat.lt_or_ge t init.length with hlt | hge
    · have h1 : t < (init.set (asg.getD j 0) (newD.getD j d)).length := by simpa
      rw [List.getD_eq_getElem _ _ h1, List.getD_eq_getElem _ _ hlt]
      exact List.getElem_set_ne (h j (List.mem_cons_self _ _)) h1
    · rw [List.getD_eq_default, List.getD_eq_default] <;> simpa

theorem foldl_set_getD_mem {α : Type} (L : List Nat) (asg : List Nat)
    (newD : List α) (d : α) (init : List α) (i : Nat)
    (hmem : i ∈ L) (hnd : L.Nodup)
    (hinj : ∀ j ∈ L, j ≠ i → asg.getD j 0 ≠ asg.getD i 0)
    (hlt : asg.getD i 0 < init.length) :
    (L.foldl (fun acc i => acc.set (asg.getD i 0) (newD.getD i d)) init).getD
        (asg.getD i 0) d = newD.getD i d := by
  induction L generalizing init with
  | nil => cases hmem
  | cons j rest ih =>
    simp only [List.foldl_cons]
    rcases List.mem_cons.mp hmem with rfl | hrest
    · have hni : i ∉ rest := (List.nodup_cons.mp hnd).1
      rw [foldl_set_getD_not_mem]
      · have h1 : asg.getD i 0 < (init.set (asg.getD i 0) (newD.getD i d)).length := by
          simpa using hlt
        rw [List.getD_eq_getElem _ _ h1]
        exact List.getElem_set_self h1
      · intro j' hj'
        exact hinj j' (List.mem_cons_of_mem _ hj') (fun he => hni (he ▸ hj'))
    · exact ih (init.set (asg.getD j 0) (newD.getD j d)) hrest
        (List.nodup_cons.mp hnd).2
        (fun j' hj' => hinj j' (List.mem_cons_of_mem _ hj'))
        (by simpa using hlt)

/-- A permutation of `0..n-1`, the contract of the assignment solver
(spec section 4.3). -/
def IsPermOf (asg : List Nat) (n : Nat) : Prop := asg.Perm (List.range n)

instance (asg : List Nat) (n : Nat) : Decidable (IsPermOf asg n) :=
  inferInstanceAs (Decidable (asg.Perm (List.range n)))

theorem IsPermOf.length {asg : List Nat} {n : Nat} (h : IsPermOf asg n) :
    asg.length = n := by simpa using h.length_eq

theorem IsPermOf.nodup {asg : List Nat} {n : Nat} (h : IsPermOf asg n) :
    asg.Nodup := h.nodup_iff.mpr (List.nodup_range n)

theorem IsPermOf.getD_lt {asg : List Nat} {n : Nat} (h : IsPermOf asg n)
    {i : Nat} (hi : i < n) : asg.getD i 0 < n := by
  have hl : i < asg.length := h.length ▸ hi
  rw [List.getD_eq_getElem _ _ hl]
  have : asg[i] ∈ asg := List.getElem_mem hl
  simpa using h.mem_iff.mp this

theorem IsPermOf.getD_inj {asg : List Nat} {n : Nat} (h : IsPermOf asg n)
    {i j : Nat} (hi : i < n) (hj : j < n)
    (he : asg.getD i 0 = asg.getD j 0) : i = j := by
  have hli : i < asg.length := h.length ▸ hi
  have hlj : j < asg.length := h.length ▸ hj
  rw [List.getD_eq_getElem _ _ hli, List.getD_eq_getElem _ _ hlj] at he
  exact (List.Nodup.getElem_inj_iff h.nodup).mp he

theorem arrange_getD (dim : Nat) (asg : List Nat) (newD : List Int)
    (h : IsPermOf asg dim) {i : Nat} (hi : i < dim) :
    (PositionTracker.arrange dim asg newD).getD (asg.getD i 0) 0
      = newD.getD i 0 := by
  unfold PositionTracker.arrange
  apply foldl_set_getD_mem
  · simpa using hi
  · exact List.nodup_range dim
  · intro j hj hne
    exact fun he => hne (h.getD_inj (by simpa using hj) hi he)
  · simpa using h.getD_lt hi

/-! ## `removeElemsFromVector` -/

theorem removeElemsAux_nil_rows {α : Type} (v : List α) (vidx : Nat) :
    removeElemsAux v vidx [] = v := by
  induction v generalizing vidx with
  | nil => rfl
  | cons x xs ih => simp [removeElemsAux, ih]

/-- A strictly increasing list of naturals inside a window of size `n` has
at most `n` elements. -/
theorem sorted_window_length (rows : List Nat) (a n : Nat)
    (hs : List.Sorted (· < ·) rows)
    (hw : ∀ r ∈ rows, a ≤ r ∧ r < a + n) : rows.length ≤ n := by
  induction rows generalizing a n with
  | nil => simp
  | cons r rs ih =>
    rcases List.sorted_cons.mp hs with ⟨hlt, hs'⟩
    have hr := hw r (List.mem_cons_self _ _)
    have hn : 1 ≤ n := by omega
    have : rs.length ≤ n - 1 := by
      apply ih (r + 1) (n - 1) hs'
      intro r' hr'
      have h1 := hw r' (List.mem_cons_of_mem _ hr')
      have h2 := hlt r' hr'
      omega
    simpa using by omega

/-- Deleting a strictly sorted in-window index list removes exactly one
element per index. -/
theorem removeElemsAux_length {α : Type} (v : List α) (vidx : Nat)
    (rows : List Nat) (hs : List.Sorted (· < ·) rows)
    (hw : ∀ r ∈ rows, vidx ≤ r ∧ r < vidx + v.length) :
    (removeElemsAux v vidx rows).length = v.length - rows.length := by
  induction v generalizing vidx rows with
  | nil =>
    cases rows with
    | nil => rfl
    | cons r rs =>
      have h := hw r (List.mem_cons_self _ _)
      simp only [List.length_nil] at h
      exact absurd h (by omega)
  | cons x xs ih =>
    cases rows with
    | nil => simp [removeElemsAux, removeElemsAux_nil_rows]
    | cons r rs =>
      rcases List.sorted_cons.mp hs with ⟨hlt, hs'⟩
      by_cases he : r = vidx
      · subst he
        have hw2 : ∀ r' ∈ rs, r + 1 ≤ r' ∧ r' < (r + 1) + xs.length := by
          intro r' hr'
          have h1 := (hw r' (List.mem_cons_of_mem _ hr')).2
          have h2 := hlt r' hr'
          simp only [List.length_cons] at h1
          exact ⟨by omega, by omega⟩
        have hlen : rs.length ≤ xs.length :=
          sorted_window_length rs (r + 1) xs.length hs'
            (fun r' hr' => hw2 r' hr')
        simp only [removeElemsAux, ne_eq, not_true_eq_false, if_false]
        rw [ih (r + 1) rs hs' hw2]
        simp only [List.length_cons]
        omega
      · have hvr : vidx < r := by
          have := (hw r (List.mem_cons_self _ _)).1
          omega
        have hw2 : ∀ r' ∈ r :: rs, vidx + 1 ≤ r' ∧ r' < (vidx + 1) + xs.length := by
          intro r' hr'
          have h1 := (hw r' hr').2
          simp only [List.length_cons] at h1
          rcases List.mem_cons.mp hr' with rfl | hmr
          · exact ⟨by omega, by omega⟩
          · have := hlt r' hmr
            exact ⟨by omega, by omega⟩
        have hlen : (r :: rs).length ≤ xs.length :=
          sorted_window_length (r :: rs) (vidx + 1) xs.length hs
            (fun r' hr' => hw2 r' hr')
        simp only [removeElemsAux, ne_eq, he, not_false_eq_true, if_true,
          List.length_cons]
        rw [ih (vidx + 1) (r :: rs) hs hw2]
        simp only [List.length_cons] at hlen ⊢
        omega

/-- Spec-side formulation of row deletion: keep, in order, exactly the
entries whose index is not listed. -/
def keepNonDeleted {α : Type} (v : List α) (rows : List Nat) : List α :=
  ((v.enum).filter (fun p => decide (p.1 ∉ rows))).map Prod.snd

theorem removeElemsAux_eq_filter {α : Type} (v : List α) (vidx : Nat)
    (rows : List Nat) (hs : List.Sorted (· < ·) rows)
    (hb : ∀ r ∈ rows, vidx ≤ r) :
    removeElemsAux v vidx rows
      = ((List.enumFrom vidx v).filter (fun p => decide (p.1 ∉ rows))).map
          Prod.snd := by
  induction v generalizing vidx rows with
  | nil => simp [removeElemsAux]
  | cons x xs ih =>
    cases rows with
    | nil =>
      simp only [removeElemsAux_nil_rows]
      have : ∀ p ∈ List.enumFrom vidx (x :: xs),
          (fun p : Nat × α => decide (p.1 ∉ ([] : List Nat))) p = true := by
        intro p _
        simp
      rw [List.filter_eq_self.mpr this]
      clear this ih
      induction xs generalizing vidx with
      | nil => simp
      | cons y ys ihy => simp [List.enumFrom_cons, ihy]
    | cons r rs =>
      rcases List.sorted_cons.mp hs with ⟨hlt, hs'⟩
      by_cases he : r = vidx
      · subst he
        have hmem : r ∈ r :: rs := List.mem_cons_self _ _
        have hdrop : (fun p : Nat × α => decide (p.1 ∉ r :: rs)) (r, x) = false := by
          simp
        simp only [removeElemsAux, ne_eq, not_true_eq_false, if_false,
          List.enumFrom_cons]
        rw [List.filter_cons_of_neg (by simp [hdrop])]
        rw [ih (r + 1) rs hs' (fun r' hr' => by have := hlt r' hr'; omega)]
        congr 1
        apply List.filter_congr
        intro p hp
        have hge : r + 1 ≤ p.1 := (List.mem_enumFrom hp).1
        apply decide_eq_decide.mpr
        constructor
        · intro h hm
          rcases List.mem_cons.mp hm with he2 | hm2
          · omega
          · exact h hm2
        · intro h hm
          exact h (List.mem_cons_of_mem _ hm)
      · have hvr : vidx < r := by
          have := hb r (List.mem_cons_self _ _)
          omega
        have hnm : vidx ∉ r :: rs := by
          intro hm
          rcases List.mem_cons.mp hm with he2 | hm2
          · omega
          · have := hlt vidx hm2
            have := hb r (List.mem_cons_self _ _)
            omega
        simp only [removeElemsAux, ne_eq, he, not_false_eq_true, if_true,
          List.enumFrom_cons]
        rw [List.filter_cons_of_pos (by simpa using hnm), List.map_cons]
        rw [ih (vidx + 1) (r :: rs) hs
          (fun r' hr' => by
            rcases List.mem_cons.mp hr' with rfl | hm2
            · omega
            · have := hlt r' hm2
              omega)]

theorem removeElemsFromVector_eq_keep {α : Type} (v : List α)
    (rows : List Nat) (hs : List.Sorted (· < ·) rows) :
    removeElemsFromVector v rows = keepNonDeleted v rows := by
  unfold removeElemsFromVector keepNonDeleted
  rw [removeElemsAux_eq_filter v 0 rows hs (fun r _ => Nat.zero_le r)]
  rfl

theorem removeElemsFromVector_length {α : Type} (v : List α)
    (rows : List Nat) (hs : List.Sorted (· < ·) rows)
    (hw : ∀ r ∈ rows, r < v.length) :
    (removeElemsFromVector v rows).length = v.length - rows.length := by
  unfold removeElemsFromVector
  exact removeElemsAux_length v 0 rows hs
    (fun r hr => ⟨Nat.zero_le r, by simpa using hw r hr⟩)

/-! ## Identity minting (`get_n_new_ids`) -/

/-- `v` is the smallest non-negative integer not in `used` (spec:
"freshly minted unique identity — smallest non-negative integer not
currently in use"). -/
def IsLeastFresh (used : List Int) (v : Int) : Prop :=
  0 ≤ v ∧ v ∉ used ∧ ∀ j : Int, 0 ≤ j → j < v → j ∈ used

theorem IsLeastFresh_congr {u₁ u₂ : List Int} {v : Int}
    (h : ∀ z : Int, z ∈ u₁ ↔ z ∈ u₂) (hl : IsLeastFresh u₁ v) :
    IsLeastFresh u₂ v :=
  ⟨hl.1, fun hm => hl.2.1 ((h v).mpr hm),
    fun j h0 hj => (h j).mp (hl.2.2 j h0 hj)⟩

theorem countP_lt_of_mem (l : List Int) (id : Int) (hmem : id ∈ l) :
    l.countP (fun z => decide (id + 1 ≤ z)) < l.countP (fun z => decide (id ≤ z)) := by
  induction l with
  | nil => cases hmem
  | cons a t ih =>
    rw [List.countP_cons, List.countP_cons]
    have hmono : t.countP (fun z => decide (id + 1 ≤ z))
        ≤ t.countP (fun z => decide (id ≤ z)) := by
      apply List.countP_mono_left
      intro x _ hx
      simp only [decide_eq_true_eq] at hx ⊢
      omega
    rcases List.mem_cons.mp hmem with rfl | hmt
    · have h1 : (decide (id + 1 ≤ id)) = false := by simp
      have h2 : (decide (id ≤ id)) = true := by simp
      rw [h1, h2, if_neg (by simp), if_pos rfl]
      omega
    · have := ih hmt
      by_cases ha : id + 1 ≤ a
      · have h1 : (decide (id + 1 ≤ a)) = true := by simpa
        have h2 : (decide (id ≤ a)) = true := by
          simp only [decide_eq_true_eq]
          omega
        rw [h1, h2]
        omega
      · have h1 : (decide (id + 1 ≤ a)) = false := by
          simp only [decide_eq_false_iff_not]
          exact ha
        rw [h1, if_neg (by simp), add_zero]
        exact lt_of_lt_of_le this (Nat.le_add_right _ _)

/-- Correctness of the free-id scan: with enough fuel the result is not in
`lut`, is at least the start cursor, and everything between the cursor and
the result is in `lut`. -/
theorem firstFreeAux_spec (fuel : Nat) (lut : List Int) (id : Int)
    (hfuel : lut.countP (fun z => decide (id ≤ z)) < fuel) :
    firstFreeAux fuel lut id ∉ lut ∧ id ≤ firstFreeAux fuel lut id ∧
      ∀ j : Int, id ≤ j → j < firstFreeAux fuel lut id → j ∈ lut := by
  induction fuel generalizing id with
  | zero => omega
  | succ f ih =>
    unfold firstFreeAux
    by_cases hm : id ∈ lut
    · rw [if_pos hm]
      have hrec := ih (id + 1) (by
        have := countP_lt_of_mem lut id hm
        omega)
      refine ⟨hrec.1, by have := hrec.2.1; omega, ?_⟩
      intro j hj1 hj2
      rcases eq_or_lt_of_le hj1 with rfl | hlt
      · exact hm
      · exact hrec.2.2 j (by omega) hj2
    · rw [if_neg hm]
      exact ⟨hm, le_refl id, fun j h1 h2 => absurd h1 (by omega)⟩

theorem get_n_new_ids_go_spec (n : Nat) (lut : List Int) (id : Int)
    (hid : 0 ≤ id) (hcov : ∀ j : Int, 0 ≤ j → j < id → j ∈ lut) :
    (get_n_new_ids_go n lut id).length = n ∧
      ∀ i : Nat, i < n →
        IsLeastFresh (lut ++ (get_n_new_ids_go n lut id).take i)
          ((get_n_new_ids_go n lut id).getD i 0) := by
  induction n generalizing lut id with
  | zero => exact ⟨rfl, fun i hi => absurd hi (by omega)⟩
  | succ n ih =>
    have hfuel : lut.countP (fun z => decide (id ≤ z)) < lut.length + 1 := by
      have := @List.countP_le_length Int (fun z => decide (id ≤ z)) lut
      omega
    have hff := firstFreeAux_spec (lut.length + 1) lut id hfuel
    set id2 := firstFreeAux (lut.length + 1) lut id with hid2
    have hid2nn : 0 ≤ id2 := le_trans hid hff.2.1
    have hcov2 : ∀ j : Int, 0 ≤ j → j < id2 → j ∈ (id2 :: lut) := by
      intro j h0 hj
      rcases lt_or_le j id with hlt | hge
      · exact List.mem_cons_of_mem _ (hcov j h0 hlt)
      · exact List.mem_cons_of_mem _ (hff.2.2 j hge hj)
    have hrec := ih (id2 :: lut) id2 hid2nn hcov2
    have hgo : get_n_new_ids_go (n + 1) lut id
        = id2 :: get_n_new_ids_go n (id2 :: lut) id2 := by
      rw [get_n_new_ids_go]
    rw [hgo]
    constructor
    · simpa using hrec.1
    · intro i hi
      cases i with
      | zero =>
        simp only [List.take_zero, List.append_nil, List.getD_cons_zero]
        exact ⟨hid2nn, hff.1, fun j h0 hj =>
          (if hlt : j < id then hcov j h0 hlt else hff.2.2 j (by omega) hj)⟩
      | succ i =>
        have hlf := hrec.2 i (by omega)
        rw [List.take_succ_cons, List.getD_cons_succ]
        refine @IsLeastFresh_congr
          ((id2 :: lut) ++ (get_n_new_ids_go n (id2 :: lut) id2).take i)
          _ _ ?_ hlf
        intro z
        simp only [List.mem_append, List.mem_cons]
        tauto

theorem get_n_new_ids_length (cur : List Int) (n : Nat) :
    (get_n_new_ids cur n).length = n :=
  (get_n_new_ids_go_spec n cur 0 le_rfl (fun j h0 hj => absurd h0 (by omega))).1

/-- Each minted id is the least non-negative integer not among the current
ids together with the ids minted before it. -/
theorem get_n_new_ids_least (cur : List Int) (n : Nat) {i : Nat} (hi : i < n) :
    IsLeastFresh (cur ++ (get_n_new_ids cur n).take i)
      ((get_n_new_ids cur n).getD i 0) :=
  (get_n_new_ids_go_spec n cur 0 le_rfl (fun j h0 hj => absurd h0 (by omega))).2 i hi

/-- A list each of whose entries avoids all earlier entries is `Nodup`. -/
theorem nodup_of_getD_not_mem_take (m : List Int)
    (h : ∀ i : Nat, i < m.length → m.getD i 0 ∉ m.take i) : m.Nodup := by
  induction m with
  | nil => exact List.nodup_nil
  | cons a t ih =>
    rw [List.nodup_cons]
    constructor
    · intro hmem
      rcases List.getElem_of_mem hmem with ⟨i, hi, hgi⟩
      have h2 := h (i + 1) (by simpa using by omega)
      rw [List.getD_cons_succ, List.take_succ_cons] at h2
      rw [List.getD_eq_getElem t 0 hi] at h2
      exact h2 (hgi ▸ List.mem_cons_self _ _)
    · apply ih
      intro i hi
      have h2 := h (i + 1) (by simpa using by omega)
      rw [List.getD_cons_succ, List.take_succ_cons] at h2
      exact fun hm => h2 (List.mem_cons_of_mem _ hm)

theorem get_n_new_ids_nodup_append (cur : List Int) (n : Nat)
    (hcur : cur.Nodup) : (cur ++ get_n_new_ids cur n).Nodup := by
  set m := get_n_new_ids cur n with hm
  have hlen : m.length = n := get_n_new_ids_length cur n
  have hfresh : ∀ i : Nat, i < n → m.getD i 0 ∉ cur ∧ m.getD i 0 ∉ m.take i := by
    intro i hi
    have := (get_n_new_ids_least cur n hi).2.1
    rw [List.mem_append] at this
    exact ⟨fun hc => this (Or.inl hc), fun ht => this (Or.inr ht)⟩
  rw [List.nodup_append]
  refine ⟨hcur, ?_, ?_⟩
  · exact nodup_of_getD_not_mem_take m
      (fun i hi => (hfresh i (hlen ▸ hi)).2)
  · intro a hac ham
    rcases List.getElem_of_mem ham with ⟨i, hi, hgi⟩
    have := (hfresh i (hlen ▸ hi)).1
    rw [List.getD_eq_getElem m 0 hi] at this
    exact this (hgi ▸ hac)

/-! ## Counting and ordering helpers for the grow / shrink paths -/

theorem countP_range_ge (n m : Nat) :
    (List.range n).countP (fun v => decide (m ≤ v)) = n - m := by
  induction n with
  | zero => simp
  | succ n ih =>
    rw [List.range_succ, List.countP_append, ih]
    by_cases hm : m ≤ n
    · have : (List.countP (fun v => decide (m ≤ v)) [n]) = 1 := by
        simp [List.countP_cons, hm]
      rw [this]
      omega
    · have : (List.countP (fun v => decide (m ≤ v)) [n]) = 0 := by
        simp [List.countP_cons, hm]
      rw [this]
      omega

theorem map_getD_range_of_length {asg : List Nat} {dim : Nat}
    (h : asg.length = dim) :
    (List.range dim).map (fun x => asg.getD x 0) = asg := by
  subst h
  exact map_getD_range asg 0

/-- For a permutation `asg` of `0..dim-1`, exactly `k` positions carry a
value `≥ dim - k`. -/
theorem growCols_length (asg : List Nat) (dim k : Nat)
    (h : IsPermOf asg dim) (hk : k ≤ dim) :
    (growCols asg dim k).length = k := by
  unfold growCols
  rw [← List.countP_eq_length_filter]
  have h1 : (List.range dim).countP (fun x => decide (dim - k ≤ asg.getD x 0))
      = ((List.range dim).map (fun x => asg.getD x 0)).countP
          (fun v => decide (dim - k ≤ v)) := by
    rw [List.countP_map]
    rfl
  rw [h1, map_getD_range_of_length h.length, h.countP_eq, countP_range_ge]
  omega

/-- The tail entries of the assignment inspected by the shrink path:
`[assignment[dim-1], ..., assignment[dim-k]]` in push order. -/
def tailEntries (asg : List Nat) (dim k : Nat) : List Nat :=
  (List.range k).map (fun i => asg.getD (dim - 1 - i) 0)

theorem delRowsOf_perm (asg : List Nat) (dim k : Nat) :
    (delRowsOf asg dim k).Perm (tailEntries asg dim k) :=
  List.perm_insertionSort (· ≤ ·) _

theorem tailEntries_nodup (asg : List Nat) (dim k : Nat)
    (h : IsPermOf asg dim) (hk : k ≤ dim) :
    (tailEntries asg dim k).Nodup := by
  apply List.Nodup.map_on
  · intro x hx y hy hxy
    have hxk : x < k := by simpa using hx
    have hyk : y < k := by simpa using hy
    have := @IsPermOf.getD_inj asg dim h (dim - 1 - x) (dim - 1 - y)
      (by omega) (by omega) hxy
    omega
  · exact List.nodup_range k

theorem tailEntries_lt (asg : List Nat) (dim k : Nat)
    (h : IsPermOf asg dim) (_hk : k ≤ dim) (hdim : 0 < dim) :
    ∀ r ∈ tailEntries asg dim k, r < dim := by
  intro r hr
  rcases List.mem_map.mp hr with ⟨i, hi, rfl⟩
  exact h.getD_lt (by omega)

theorem tailEntries_length (asg : List Nat) (dim k : Nat) :
    (tailEntries asg dim k).length = k := by
  simp [tailEntries]

theorem delRowsOf_sorted_lt (asg : List Nat) (dim k : Nat)
    (h : IsPermOf asg dim) (hk : k ≤ dim) :
    List.Sorted (· < ·) (delRowsOf asg dim k) := by
  have hsle : List.Sorted (· ≤ ·) (delRowsOf asg dim k) :=
    List.sorted_insertionSort (· ≤ ·) _
  have hnd : (delRowsOf asg dim k).Nodup :=
    ((delRowsOf_perm asg dim k).symm.nodup (tailEntries_nodup asg dim k h hk))
  have := List.Pairwise.and hsle hnd
  exact this.imp (fun hab => lt_of_le_of_ne hab.1 hab.2)

theorem delRowsOf_lt (asg : List Nat) (dim k : Nat)
    (h : IsPermOf asg dim) (hk : k ≤ dim) (hdim : 0 < dim) :
    ∀ r ∈ delRowsOf asg dim k, r < dim := by
  intro r hr
  exact tailEntries_lt asg dim k h hk hdim r
    ((delRowsOf_perm asg dim k).subset hr)

theorem delRowsOf_length (asg : List Nat) (dim k : Nat) :
    (delRowsOf asg dim k).length = k := by
  rw [(delRowsOf_perm asg dim k).length_eq, tailEntries_length]

/-! ## `find?` over a range (for `getID`) -/

theorem find?_range_eq_some (p : Nat → Bool) (n i : Nat) (hi : i < n)
    (hp : p i = true) (hmin : ∀ j, j < i → p j = false) :
    (List.range n).find? p = some i := by
  induction n with
  | zero => omega
  | succ n ih =>
    rw [List.range_succ, List.find?_append]
    rcases Nat.lt_or_ge i n with hlt | hge
    · rw [ih hlt]
      rfl
    · have hin : i = n := by omega
      subst hin
      have hnone : (List.range i).find? p = none := by
        rw [List.find?_eq_none]
        intro x hx
        simp only [List.mem_range] at hx
        simp [hmin x hx]
      rw [hnone, Option.none_or, List.find?_singleton, if_pos hp]

/-! ## The between-ticks invariant and dispatch of `pushData` -/

/-- The parallel-array invariant of spec section 3: both history deques
hold exactly 3 frames, every frame and both the identity and freshness
vectors have slot count `N`. -/
def Inv (s : PTState) (N : Nat) : Prop :=
  s.dataX.length = 3 ∧ s.dataY.length = 3 ∧
    (∀ f ∈ s.dataX, f.length = N) ∧ (∀ f ∈ s.dataY, f.length = N) ∧
    s.ids.length = N ∧ s.good.length = N

instance (s : PTState) (N : Nat) : Decidable (Inv s N) := by
  unfold Inv
  infer_instance

/-- States the tracker can be in between ticks: freshly constructed
(`Uninitialized`) or tracking `N > 0` slots with the invariant. -/
def WF (s : PTState) : Prop :=
  s = freshPT ∨ ∃ N : Nat, 0 < N ∧ Inv s N

theorem Inv.frame0_length {s : PTState} {N : Nat} (h : Inv s N) :
    (s.dataX.getD 0 []).length = N := by
  have h3 : 0 < s.dataX.length := by
    have := h.1
    omega
  rw [List.getD_eq_getElem _ _ h3]
  exact h.2.2.1 _ (List.getElem_mem h3)

theorem length_predict (dim : Nat) (data : List (List Int)) (good : List Int) :
    (predict dim data good).length = dim := by
  simp [predict]

theorem length_createDistMat (aX aY bX bY : List Int) :
    (createDistMat aX aY bX bY).length = aX.length := by
  simp [createDistMat]

theorem foldl_set_length_gen {α : Type} (L : List Nat) (idx : Nat → Nat)
    (val : Nat → α) (init : List α) :
    (L.foldl (fun acc i => acc.set (idx i) (val i)) init).length
      = init.length := by
  induction L generalizing init with
  | nil => rfl
  | cons j rest ih => simpa using ih (init.set (idx j) (val j))

theorem length_backfill (f : List Int) (start : Nat) (vals : List Int)
    (k : Nat) : (backfill f start vals k).length = f.length :=
  foldl_set_length_gen (List.range k) (fun i => start + i)
    (fun i => vals.getD i 0) f

theorem pushData_eq_first (hung : List (List Int) → List Nat) (s : PTState)
    (xs ys : List Int) (h0 : s.dataX.length = 0) (hpos : 0 < xs.length)
    (hxy : xs.length = ys.length) :
    pushData hung s xs ys = (push_data_intern_first_step s xs ys, none) := by
  unfold pushData
  rw [if_neg (by omega), if_neg (not_not_intro hxy), if_pos h0]

theorem pushData_eq_diff_zero (hung : List (List Int) → List Nat)
    (s : PTState) (xs ys : List Int) (N : Nat) (hInv : Inv s N)
    (hxs : xs.length = N) (hys : ys.length = N) (hpos : 0 < N) :
    pushData hung s xs ys
      = (push_data_intern_diff_zero hung N s xs ys, none) := by
  have hH : (s.dataX.getD 0 []).length = N := hInv.frame0_length
  have h3 : s.dataX.length = 3 := hInv.1
  unfold pushData
  rw [if_neg (by omega), if_neg (not_not_intro (hxs.trans hys.symm)),
    if_neg (by omega), if_neg (by omega), if_neg (by omega), hH]

theorem pushData_eq_diff_ltz (hung : List (List Int) → List Nat)
    (s : PTState) (xs ys : List Int) (N : Nat) (hInv : Inv s N)
    (hgrow : N < xs.length) (hys : ys.length = xs.length) (hpos : 0 < N) :
    pushData hung s xs ys
      = (push_data_intern_diff_ltz hung (xs.length - N) s xs ys, none) := by
  have hH : (s.dataX.getD 0 []).length = N := hInv.frame0_length
  have h3 : s.dataX.length = 3 := hInv.1
  unfold pushData
  rw [if_neg (by omega), if_neg (not_not_intro hys.symm),
    if_neg (by omega), if_pos (by omega), hH]

theorem pushData_eq_diff_gtz (hung : List (List Int) → List Nat)
    (s : PTState) (xs ys : List Int) (N : Nat) (hInv : Inv s N)
    (hshrink : xs.length < N) (hys : ys.length = xs.length)
    (hpos : 0 < xs.length) :
    pushData hung s xs ys
      = (push_data_intern_diff_gtz hung (N - xs.length) s xs ys, none) := by
  have hH : (s.dataX.getD 0 []).length = N := hInv.frame0_length
  have h3 : s.dataX.length = 3 := hInv.1
  unfold pushData
  rw [if_neg (by omega), if_neg (not_not_intro hys.symm),
    if_neg (by omega), if_neg (by omega), if_pos (by omega), hH]

/-! ## Claim theorems -/

/-- C1.  On a freshly constructed tracker (`Uninitialized`, both history
deques empty) `getID(x, y)` does *not* return `-1` for every coordinate
pair: its very first step, `m_matData[X][2]`, indexes frame 2 of an empty
deque, an out-of-bounds access (C++ undefined behaviour, modelled `none`),
for every coordinate pair. -/
theorem C1_getID_fresh_out_of_bounds :
    ∀ x y : Int, getID freshPT x y = none := fun _ _ => rfl

/-- C3.  `pushData(xs, ys)` with an empty batch or mismatched lengths
fails with `InvalidArgument` and returns the tracker state exactly as it
was — no partial mutation, whatever the solver and prior state. -/
theorem C3_pushData_invalid_argument (hung : List (List Int) → List Nat)
    (s : PTState) (xs ys : List Int)
    (h : xs.length = 0 ∨ xs.length ≠ ys.length) :
    pushData hung s xs ys = (s, some PTError.invalidArgument) := by
  unfold pushData
  rcases h with h0 | hne
  · rw [if_pos h0]
  · by_cases h0 : xs.length = 0
    · rw [if_pos h0]
    · rw [if_neg h0, if_pos hne]

theorem C3_witness :
    (([] : List Int).length = 0 ∨ ([] : List Int).length ≠ [(1 : Int)].length) ∧
      pushData (fun _ => []) ⟨[[5], [5], [5]], [[6], [6], [6]], [7], [0], [1]⟩ [] [1]
        = (⟨[[5], [5], [5]], [[6], [6], [6]], [7], [0], [1]⟩, some PTError.invalidArgument) :=
  ⟨Or.inl rfl,
    C3_pushData_invalid_argument (fun _ => []) ⟨[[5], [5], [5]], [[6], [6], [6]], [7], [0], [1]⟩
      [] [1] (Or.inl rfl)⟩

/-- C4.  During prediction each slot's predictor is selected by its
freshness counter: freshness 1 returns the newest sample unchanged,
freshness 2 returns the linear extrapolation `b + (b - a)` over the two
newest samples, and any freshness `≥ 3` returns the second-difference
quadratic extrapolation `c + (c-b) + ((c-b) - (b-a))` over the three
samples ordered oldest to newest. -/
theorem C4_predict_freshness_dispatch (data : List (List Int))
    (good : List Int) (dim y : Nat) (hy : y < dim) :
    (good.getD y 0 = 1 →
      (predict dim data good).getD y 0 = (data.getD 2 []).getD y 0) ∧
    (good.getD y 0 = 2 →
      (predict dim data good).getD y 0 =
        (data.getD 2 []).getD y 0
          + ((data.getD 2 []).getD y 0 - (data.getD 1 []).getD y 0)) ∧
    (3 ≤ good.getD y 0 →
      (predict dim data good).getD y 0 =
        (data.getD 2 []).getD y 0
          + ((data.getD 2 []).getD y 0 - (data.getD 1 []).getD y 0)
          + (((data.getD 2 []).getD y 0 - (data.getD 1 []).getD y 0)
            - ((data.getD 1 []).getD y 0 - (data.getD 0 []).getD y 0))) := by
  unfold predict
  rw [getD_map_range _ _ hy]
  refine ⟨fun h1 => ?_, fun h2 => ?_, fun h3 => ?_⟩
  · simp [h1]
    intro hno
    exact absurd (by simpa using h1) hno
  · rw [if_neg (by omega), if_pos h2]
    rfl
  · rw [if_neg (by omega), if_neg (by omega)]
    rfl

theorem C4_witness :
    0 < 1 ∧
      (([(3 : Int)] : List Int).getD 0 0 = 1 →
        (predict 1 [[(1 : Int)], [2], [4]] [3]).getD 0 0
          = ([[(1 : Int)], [2], [4]].getD 2 []).getD 0 0) ∧
      (([(3 : Int)] : List Int).getD 0 0 = 2 →
        (predict 1 [[(1 : Int)], [2], [4]] [3]).getD 0 0
          = ([[(1 : Int)], [2], [4]].getD 2 []).getD 0 0
            + (([[(1 : Int)], [2], [4]].getD 2 []).getD 0 0
              - ([[(1 : Int)], [2], [4]].getD 1 []).getD 0 0)) ∧
      (3 ≤ ([(3 : Int)] : List Int).getD 0 0 →
        (predict 1 [[(1 : Int)], [2], [4]] [3]).getD 0 0
          = ([[(1 : Int)], [2], [4]].getD 2 []).getD 0 0
            + (([[(1 : Int)], [2], [4]].getD 2 []).getD 0 0
              - ([[(1 : Int)], [2], [4]].getD 1 []).getD 0 0)
            + ((([[(1 : Int)], [2], [4]].getD 2 []).getD 0 0
              - ([[(1 : Int)], [2], [4]].getD 1 []).getD 0 0)
              - (([[(1 : Int)], [2], [4]].getD 1 []).getD 0 0
                - ([[(1 : Int)], [2], [4]].getD 0 []).getD 0 0))) :=
  ⟨Nat.one_pos, C4_predict_freshness_dispatch [[1], [2], [4]] [3] 1 0 Nat.one_pos⟩

/-- C10.  In the growth path with cost-matrix dimension `dim` and
`k = D_new - D_old`, if the solved assignment is a permutation of
`0..dim-1` then exactly `k` indices `x` satisfy
`assignment[x] >= dim - k`; hence the collected backfill column list has
length exactly `k`, the size-mismatch warning branch
(`newDataColsValues[X].size() != DIFF`) is unreachable, and the backfill
loop index `i < k` stays strictly within the collected values. -/
theorem C10_grow_collection (asg : List Nat) (dim k : Nat)
    (h : IsPermOf asg dim) (hk : k ≤ dim) :
    (growCols asg dim k).length = k ∧
    (∀ newD : List Int,
      ¬ ((growCols asg dim k).map
          (fun x => newD.getD (asg.getD x 0) 0)).length ≠ k) ∧
    (∀ newD : List Int, ∀ i : Nat, i < k →
      i < ((growCols asg dim k).map
          (fun x => newD.getD (asg.getD x 0) 0)).length) := by
  have hlen := growCols_length asg dim k h hk
  refine ⟨hlen, ?_, ?_⟩
  · intro newD hne
    exact hne (by rw [List.length_map, hlen])
  · intro newD i hi
    rw [List.length_map, hlen]
    exact hi

theorem C10_witness :
    (IsPermOf [2, 0, 1] 3 ∧ 1 ≤ 3) ∧
      ((growCols [2, 0, 1] 3 1).length = 1 ∧
      (∀ newD : List Int,
        ¬ ((growCols [2, 0, 1] 3 1).map
            (fun x => newD.getD ([2, 0, 1].getD x 0) 0)).length ≠ 1) ∧
      (∀ newD : List Int, ∀ i : Nat, i < 1 →
        i < ((growCols [2, 0, 1] 3 1).map
            (fun x => newD.getD ([2, 0, 1].getD x 0) 0)).length)) :=
  ⟨⟨by decide, by decide⟩,
    C10_grow_collection [2, 0, 1] 3 1 (by decide) (by decide)⟩

/-- The integer matrix entry is the floor of the real Euclidean distance
between the integer points `(ax, ay)` and `(bx, byy)`. -/
theorem distEntry_eq_floor (ax ay bx byy : Int) :
    distEntry ax ay bx byy
      = ⌊Real.sqrt ((((ax : ℝ) - (bx : ℝ)) ^ 2 + ((ay : ℝ) - (byy : ℝ)) ^ 2))⌋ := by
  unfold distEntry
  have hnn : (0 : Int) ≤ (ax - bx) ^ 2 + (ay - byy) ^ 2 := by positivity
  have hcast : (((((ax - bx) ^ 2 + (ay - byy) ^ 2).toNat : Nat)) : ℝ)
      = ((ax : ℝ) - (bx : ℝ)) ^ 2 + ((ay : ℝ) - (byy : ℝ)) ^ 2 := by
    rw [← Int.cast_natCast, Int.toNat_of_nonneg hnn]
    push_cast
    ring
  rw [← hcast, Real.floor_real_sqrt_eq_nat_sqrt]
  rfl

/-- C8 counterexample.  For predicted point `(0,0)` and observed point
`(1,1)` the builder produces the entry `1`, while the Euclidean distance
between predicted point 0 and observed point 0 is `√2 ≠ 1`: the entry is
not equal to the Euclidean distance. -/
theorem C8_counterexample :
    createDistMatChecked [0] [0] [1] [1] = some [[1]] ∧
      (((1 : Int) : ℝ)
        ≠ Real.sqrt ((((0 : Int) : ℝ) - ((1 : Int) : ℝ)) ^ 2
            + (((0 : Int) : ℝ) - ((1 : Int) : ℝ)) ^ 2)) := by
  constructor
  · have hsq : Nat.sqrt 2 = 1 := by
      have h1 : 1 ≤ Nat.sqrt 2 := Nat.le_sqrt.mpr (by norm_num)
      have h2 : Nat.sqrt 2 < 2 := Nat.sqrt_lt.mpr (by norm_num)
      omega
    have hval : distEntry 0 0 1 1 = 1 := by
      unfold distEntry
      have h3 : (((0 : Int) - 1) ^ 2 + ((0 : Int) - 1) ^ 2) = 2 := by norm_num
      rw [h3]
      have h4 : (2 : Int).toNat = 2 := rfl
      rw [h4, hsq]
      rfl
    have hr1 : List.range 1 = [0] := rfl
    simp [createDistMatChecked, createDistMat, hr1, hval]
  · intro h
    have h2 : ((1 : ℝ)) < Real.sqrt 2 := by
      rw [Real.lt_sqrt (by norm_num)]
      norm_num
    have h3 : ((((0 : Int) : ℝ) - ((1 : Int) : ℝ)) ^ 2
        + (((0 : Int) : ℝ) - ((1 : Int) : ℝ)) ^ 2) = 2 := by
      norm_num
    rw [h3] at h
    rw [← h] at h2
    exact lt_irrefl _ (by exact_mod_cast h2)

/-- C8 amended.  For equal-length predicted and observed coordinate
sequences of length `D` the builder yields a `D × D` matrix whose entry
`M[i][j]` is the Euclidean distance between predicted point `j` and
observed point `i` *truncated to the integer scalar type* (the floor of
the real distance); when the sequences differ in length the builder
fails with a precondition violation instead of producing a matrix. -/
theorem C8_distmat_floor_amended (aX aY bX bY : List Int) (D : Nat)
    (haX : aX.length = D) (hbX : bX.length = D) :
    (∃ M : List (List Int),
      createDistMatChecked aX aY bX bY = some M ∧
      M.length = D ∧ (∀ row ∈ M, row.length = D) ∧
      ∀ i j : Nat, i < D → j < D →
        (M.getD i []).getD j 0
          = ⌊Real.sqrt ((((aX.getD j 0 : Int) : ℝ) - ((bX.getD i 0 : Int) : ℝ)) ^ 2
              + (((aY.getD j 0 : Int) : ℝ) - ((bY.getD i 0 : Int) : ℝ)) ^ 2)⌋) ∧
    (∀ cX cY dX dY : List Int, cX.length ≠ dX.length →
      createDistMatChecked cX cY dX dY = none) := by
  constructor
  · refine ⟨createDistMat aX aY bX bY, ?_, ?_, ?_, ?_⟩
    · unfold createDistMatChecked
      rw [if_pos (haX.trans hbX.symm)]
    · rw [length_createDistMat, haX]
    · intro row hrow
      unfold createDistMat at hrow
      simp only [List.mem_map] at hrow
      rcases hrow with ⟨i, hi, rfl⟩
      simp [haX]
    · intro i j hi hj
      unfold createDistMat
      rw [getD_map_range _ _ (by omega : i < aX.length),
        getD_map_range _ _ (by omega : j < aX.length)]
      exact distEntry_eq_floor _ _ _ _
  · intro cX cY dX dY hne
    unfold createDistMatChecked
    rw [if_neg hne]

theorem C8_witness :
    ([(0 : Int), 3].length = 2 ∧ [(4 : Int), 0].length = 2) ∧
      ((∃ M : List (List Int),
        createDistMatChecked [(0 : Int), 3] [0, 4] [(4 : Int), 0] [0, 3]
          = some M ∧
        M.length = 2 ∧ (∀ row ∈ M, row.length = 2) ∧
        ∀ i j : Nat, i < 2 → j < 2 →
          (M.getD i []).getD j 0
            = ⌊Real.sqrt (((([(0 : Int), 3].getD j 0 : Int) : ℝ)
                  - (([(4 : Int), 0].getD i 0 : Int) : ℝ)) ^ 2
                + ((([(0 : Int), 4].getD j 0 : Int) : ℝ)
                  - (([(0 : Int), 3].getD i 0 : Int) : ℝ)) ^ 2)⌋) ∧
      (∀ cX cY dX dY : List Int, cX.length ≠ dX.length →
        createDistMatChecked cX cY dX dY = none)) :=
  ⟨⟨rfl, rfl⟩,
    C8_distmat_floor_amended [0, 3] [0, 4] [4, 0] [0, 3] 2 rfl rfl⟩

/-- C9.  The first-ever `pushData` on a fresh tracker with `D` points
seeds all three history frames of both axes with the pushed values,
assigns identities `0..D-1` sequentially, sets every freshness counter to
1, and — for pairwise-distinct input points — `getID(xs[i], ys[i])`
immediately afterwards returns `i` for every `i < D`. -/
theorem C9_first_push (hung : List (List Int) → List Nat)
    (xs ys : List Int) (D : Nat)
    (hxs : xs.length = D) (hys : ys.length = D) (hpos : 0 < D)
    (hdist : ∀ i ∈ List.range D, ∀ j ∈ List.range D,
      xs.getD i 0 = xs.getD j 0 ∧ ys.getD i 0 = ys.getD j 0 → i = j) :
    (pushData hung freshPT xs ys).2 = none ∧
    (pushData hung freshPT xs ys).1.dataX = [xs, xs, xs] ∧
    (pushData hung freshPT xs ys).1.dataY = [ys, ys, ys] ∧
    (pushData hung freshPT xs ys).1.ids
      = (List.range D).map (fun i => Int.ofNat i) ∧
    (pushData hung freshPT xs ys).1.good = List.replicate D 1 ∧
    ∀ i : Nat, i < D →
      getID (pushData hung freshPT xs ys).1 (xs.getD i 0) (ys.getD i 0)
        = some (i : Int) := by
  have hdisp := pushData_eq_first hung freshPT xs ys rfl (by omega)
    (by omega)
  have hstate : push_data_intern_first_step freshPT xs ys
      = ⟨[xs, xs, xs], [ys, ys, ys],
          (List.range D).map (fun i => Int.ofNat i), [],
          List.replicate D 1⟩ := by
    simp [push_data_intern_first_step, freshPT, hxs]
  rw [hdisp, hstate]
  refine ⟨rfl, rfl, rfl, rfl, rfl, ?_⟩
  intro i hi
  rw [show getID (⟨[xs, xs, xs], [ys, ys, ys],
      (List.range D).map (fun i => Int.ofNat i), [],
      List.replicate D 1⟩ : PTState) (xs.getD i 0) (ys.getD i 0)
    = (match (List.range xs.length).find?
        (fun i2 => xs.getD i2 0 == xs.getD i 0 && ys.getD i2 0 == ys.getD i 0) with
      | some idx =>
        some (((List.range D).map (fun i => Int.ofNat i)).getD idx 0)
      | none => some (-1)) from rfl]
  have hfind : (List.range xs.length).find?
      (fun i2 => xs.getD i2 0 == xs.getD i 0 && ys.getD i2 0 == ys.getD i 0)
        = some i := by
    apply find?_range_eq_some _ _ i (by omega) (by simp)
    intro j hj
    apply Bool.eq_false_iff.mpr
    intro htrue
    rw [Bool.and_eq_true, beq_iff_eq, beq_iff_eq] at htrue
    have hji := hdist j (by simp only [List.mem_range]; omega) i
      (by simp only [List.mem_range]; omega) ⟨htrue.1, htrue.2⟩
    omega
  rw [hfind]
  show some (((List.range D).map (fun i2 => Int.ofNat i2)).getD i 0)
    = some (i : Int)
  rw [getD_map_range _ _ (show i < D by omega)]
  rfl

theorem C9_witness :
    ([(0 : Int), 10].length = 2 ∧ [(0 : Int), 10].length = 2 ∧ 0 < 2 ∧
      (∀ i ∈ List.range 2, ∀ j ∈ List.range 2,
        [(0 : Int), 10].getD i 0 = [(0 : Int), 10].getD j 0 ∧
          [(0 : Int), 10].getD i 0 = [(0 : Int), 10].getD j 0 → i = j)) ∧
    ((pushData (fun _ => []) freshPT [0, 10] [0, 10]).2 = none ∧
      (pushData (fun _ => []) freshPT [0, 10] [0, 10]).1.dataX
        = [[0, 10], [0, 10], [0, 10]] ∧
      (pushData (fun _ => []) freshPT [0, 10] [0, 10]).1.dataY
        = [[0, 10], [0, 10], [0, 10]] ∧
      (pushData (fun _ => []) freshPT [0, 10] [0, 10]).1.ids
        = (List.range 2).map (fun i => Int.ofNat i) ∧
      (pushData (fun _ => []) freshPT [0, 10] [0, 10]).1.good
        = List.replicate 2 1 ∧
      ∀ i : Nat, i < 2 →
        getID (pushData (fun _ => []) freshPT [0, 10] [0, 10]).1
            ([(0 : Int), 10].getD i 0) ([(0 : Int), 10].getD i 0)
          = some (i : Int)) :=
  ⟨⟨rfl, rfl, Nat.zero_lt_two, by decide⟩,
    C9_first_push (fun _ => []) [0, 10] [0, 10] 2 rfl rfl
      Nat.zero_lt_two (by decide)⟩

/-- C7.  A tick with `D_new = D_old = N` and solved assignment `asg` (a
permutation) reorders the observations by the inverse of `asg` —
observation `i` lands in slot `asg[i]` of the appended newest frame —
drops the oldest frame (sliding window of depth 3), and increments every
slot's freshness counter by exactly 1. -/
theorem C7_equal_tick_rearrange (asg : List Nat) (s : PTState)
    (xs ys : List Int) (N : Nat)
    (hInv : Inv s N) (hperm : IsPermOf asg N)
    (hxs : xs.length = N) (hys : ys.length = N) (hpos : 0 < N) :
    (pushData (fun _ => asg) s xs ys).2 = none ∧
    (pushData (fun _ => asg) s xs ys).1.dataX.length = 3 ∧
    (pushData (fun _ => asg) s xs ys).1.dataY.length = 3 ∧
    (pushData (fun _ => asg) s xs ys).1.dataX.take 2 = s.dataX.drop 1 ∧
    (pushData (fun _ => asg) s xs ys).1.dataY.take 2 = s.dataY.drop 1 ∧
    (pushData (fun _ => asg) s xs ys).1.good = s.good.map (· + 1) ∧
    ∀ i : Nat, i < N →
      (((pushData (fun _ => asg) s xs ys).1.dataX.getD 2 []).getD
          (asg.getD i 0) 0 = xs.getD i 0) ∧
      (((pushData (fun _ => asg) s xs ys).1.dataY.getD 2 []).getD
          (asg.getD i 0) 0 = ys.getD i 0) := by
  have hdisp := pushData_eq_diff_zero (fun _ => asg) s xs ys N hInv hxs hys hpos
  have hstate : push_data_intern_diff_zero (fun _ => asg) N s xs ys
      = { s with
          dataX := pushAndRearrangeAxis N s.dataX asg xs,
          dataY := pushAndRearrangeAxis N s.dataY asg ys,
          assignment := asg,
          good := s.good.map (· + 1) } := rfl
  rw [hdisp, hstate]
  obtain ⟨a, b, c, hX⟩ := List.length_eq_three.mp hInv.1
  obtain ⟨d, e, f, hY⟩ := List.length_eq_three.mp hInv.2.1
  have hpA : pushAndRearrangeAxis N s.dataX asg xs = [b, c, arrange N asg xs] := by
    rw [hX]
    rfl
  have hpB : pushAndRearrangeAxis N s.dataY asg ys = [e, f, arrange N asg ys] := by
    rw [hY]
    rfl
  refine ⟨rfl, ?_, ?_, ?_, ?_, rfl, ?_⟩
  · show (pushAndRearrangeAxis N s.dataX asg xs).length = 3
    rw [hpA]
    rfl
  · show (pushAndRearrangeAxis N s.dataY asg ys).length = 3
    rw [hpB]
    rfl
  · show (pushAndRearrangeAxis N s.dataX asg xs).take 2 = s.dataX.drop 1
    rw [hpA, hX]
    rfl
  · show (pushAndRearrangeAxis N s.dataY asg ys).take 2 = s.dataY.drop 1
    rw [hpB, hY]
    rfl
  · intro i hi
    constructor
    · show ((pushAndRearrangeAxis N s.dataX asg xs).getD 2 []).getD
          (asg.getD i 0) 0 = xs.getD i 0
      rw [hpA]
      exact arrange_getD N asg xs hperm hi
    · show ((pushAndRearrangeAxis N s.dataY asg ys).getD 2 []).getD
          (asg.getD i 0) 0 = ys.getD i 0
      rw [hpB]
      exact arrange_getD N asg ys hperm hi

theorem C7_witness :
    (Inv ⟨[[5, 6], [7, 8], [9, 10]], [[0, 1], [2, 3], [4, 5]],
        [0, 1], [0, 1], [1, 2]⟩ 2 ∧
      IsPermOf [1, 0] 2 ∧ [(20 : Int), 30].length = 2 ∧
      [(21 : Int), 31].length = 2 ∧ 0 < 2) ∧
    ((pushData (fun _ => [1, 0]) ⟨[[5, 6], [7, 8], [9, 10]],
        [[0, 1], [2, 3], [4, 5]], [0, 1], [0, 1], [1, 2]⟩
        [20, 30] [21, 31]).2 = none ∧
      (pushData (fun _ => [1, 0]) ⟨[[5, 6], [7, 8], [9, 10]],
        [[0, 1], [2, 3], [4, 5]], [0, 1], [0, 1], [1, 2]⟩
        [20, 30] [21, 31]).1.dataX.length = 3 ∧
      (pushData (fun _ => [1, 0]) ⟨[[5, 6], [7, 8], [9, 10]],
        [[0, 1], [2, 3], [4, 5]], [0, 1], [0, 1], [1, 2]⟩
        [20, 30] [21, 31]).1.dataY.length = 3 ∧
      (pushData (fun _ => [1, 0]) ⟨[[5, 6], [7, 8], [9, 10]],
        [[0, 1], [2, 3], [4, 5]], [0, 1], [0, 1], [1, 2]⟩
        [20, 30] [21, 31]).1.dataX.take 2
        = [[(5 : Int), 6], [7, 8], [9, 10]].drop 1 ∧
      (pushData (fun _ => [1, 0]) ⟨[[5, 6], [7, 8], [9, 10]],
        [[0, 1], [2, 3], [4, 5]], [0, 1], [0, 1], [1, 2]⟩
        [20, 30] [21, 31]).1.dataY.take 2
        = [[(0 : Int), 1], [2, 3], [4, 5]].drop 1 ∧
      (pushData (fun _ => [1, 0]) ⟨[[5, 6], [7, 8], [9, 10]],
        [[0, 1], [2, 3], [4, 5]], [0, 1], [0, 1], [1, 2]⟩
        [20, 30] [21, 31]).1.good = [(1 : Int), 2].map (· + 1) ∧
      ∀ i : Nat, i < 2 →
        (((pushData (fun _ => [1, 0]) ⟨[[5, 6], [7, 8], [9, 10]],
            [[0, 1], [2, 3], [4, 5]], [0, 1], [0, 1], [1, 2]⟩
            [20, 30] [21, 31]).1.dataX.getD 2 []).getD
            ([1, 0].getD i 0) 0 = [(20 : Int), 30].getD i 0) ∧
        (((pushData (fun _ => [1, 0]) ⟨[[5, 6], [7, 8], [9, 10]],
            [[0, 1], [2, 3], [4, 5]], [0, 1], [0, 1], [1, 2]⟩
            [20, 30] [21, 31]).1.dataY.getD 2 []).getD
            ([1, 0].getD i 0) 0 = [(21 : Int), 31].getD i 0)) :=
  ⟨⟨by decide, by decide, rfl, rfl, Nat.zero_lt_two⟩,
    C7_equal_tick_rearrange [1, 0] ⟨[[5, 6], [7, 8], [9, 10]],
      [[0, 1], [2, 3], [4, 5]], [0, 1], [0, 1], [1, 2]⟩
      [20, 30] [21, 31] 2 (by decide) (by decide) rfl rfl Nat.zero_lt_two⟩

/-- C5.  A tick that grows the slot set from `D_old` to `D_new` appends
exactly `k = D_new - D_old` new slots at the end of the identity vector;
each new identity is, at the time it is minted, the smallest non-negative
integer not in use (current ids plus the ids minted before it); the
`D_old` pre-existing identities are unchanged, the live identity count
afterwards is `D_new`, and all live identities remain pairwise
distinct. -/
theorem C5_grow_mints_fresh_ids (hung : List (List Int) → List Nat)
    (s : PTState) (xs ys : List Int) (Dold Dnew : Nat)
    (hInv : Inv s Dold) (hNodup : s.ids.Nodup)
    (hxs : xs.length = Dnew) (hys : ys.length = Dnew)
    (hlt : Dold < Dnew) (hpos : 0 < Dold) :
    (pushData hung s xs ys).2 = none ∧
    (pushData hung s xs ys).1.ids
      = s.ids ++ get_n_new_ids s.ids (Dnew - Dold) ∧
    (pushData hung s xs ys).1.ids.length = Dnew ∧
    (pushData hung s xs ys).1.ids.take Dold = s.ids ∧
    (∀ i : Nat, i < Dnew - Dold →
      IsLeastFresh (s.ids ++ (get_n_new_ids s.ids (Dnew - Dold)).take i)
        ((get_n_new_ids s.ids (Dnew - Dold)).getD i 0)) ∧
    (pushData hung s xs ys).1.ids.Nodup := by
  subst hxs
  have hdisp := pushData_eq_diff_ltz hung s xs ys Dold hInv hlt hys hpos
  have hlen : s.ids.length = Dold := hInv.2.2.2.2.1
  have hids : (push_data_intern_diff_ltz hung (xs.length - Dold) s xs ys).ids
      = s.ids ++ get_n_new_ids s.ids (xs.length - Dold) := rfl
  rw [hdisp]
  refine ⟨rfl, hids, ?_, ?_, ?_, ?_⟩
  · rw [hids, List.length_append, hlen, get_n_new_ids_length]
    omega
  · rw [hids, ← hlen, List.take_left]
  · intro i hi
    exact get_n_new_ids_least s.ids (xs.length - Dold) hi
  · rw [hids]
    exact get_n_new_ids_nodup_append s.ids (xs.length - Dold) hNodup

theorem C5_witness :
    (Inv ⟨[[5], [5], [5]], [[6], [6], [6]], [7], [0], [1]⟩ 1 ∧ ([(7 : Int)] : List Int).Nodup ∧
      [(1 : Int), 2].length = 2 ∧ [(3 : Int), 4].length = 2 ∧
      1 < 2 ∧ 0 < 1) ∧
    ((pushData (fun _ => [0, 1]) ⟨[[5], [5], [5]], [[6], [6], [6]], [7], [0], [1]⟩ [1, 2] [3, 4]).2
        = none ∧
      (pushData (fun _ => [0, 1]) ⟨[[5], [5], [5]], [[6], [6], [6]], [7], [0], [1]⟩
          [1, 2] [3, 4]).1.ids
        = [(7 : Int)] ++ get_n_new_ids [(7 : Int)] (2 - 1) ∧
      (pushData (fun _ => [0, 1]) ⟨[[5], [5], [5]], [[6], [6], [6]], [7], [0], [1]⟩
          [1, 2] [3, 4]).1.ids.length = 2 ∧
      (pushData (fun _ => [0, 1]) ⟨[[5], [5], [5]], [[6], [6], [6]], [7], [0], [1]⟩
          [1, 2] [3, 4]).1.ids.take 1 = [(7 : Int)] ∧
      (∀ i : Nat, i < 2 - 1 →
        IsLeastFresh ([(7 : Int)] ++ (get_n_new_ids [(7 : Int)] (2 - 1)).take i)
          ((get_n_new_ids [(7 : Int)] (2 - 1)).getD i 0)) ∧
      (pushData (fun _ => [0, 1]) ⟨[[5], [5], [5]], [[6], [6], [6]], [7], [0], [1]⟩
          [1, 2] [3, 4]).1.ids.Nodup) :=
  ⟨⟨by decide, by decide, rfl, rfl, Nat.one_lt_two, Nat.one_pos⟩,
    C5_grow_mints_fresh_ids (fun _ => [0, 1]) ⟨[[5], [5], [5]], [[6], [6], [6]], [7], [0], [1]⟩
      [1, 2] [3, 4] 1 2 (by decide) (by decide) rfl rfl
      Nat.one_lt_two Nat.one_pos⟩

/-- C6.  A tick that shrinks the slot set from `D_old` to `D_new`
(`k = D_old - D_new`) deletes exactly the `k` slots named by the tail
entries `assignment[dim-1] .. assignment[dim-k]` of the solved assignment
(the slots matched to the `k` sentinel-padded observations), with the
deletion index list sorted ascending and the corresponding rows removed
from all four parallel arrays — both history axes, identities and
freshness — in one consistent pass (keep exactly the rows whose index is
not listed), so the `D_new` surviving slots keep their identities, in
order, and exactly `k` identities are retired. -/
theorem C6_shrink_deletes_sentinel_slots (asg : List Nat) (s : PTState)
    (xs ys : List Int) (Dold : Nat)
    (hInv : Inv s Dold) (hperm : IsPermOf asg Dold)
    (hxs : xs.length < Dold) (hys : ys.length = xs.length)
    (hpos : 0 < xs.length) :
    (pushData (fun _ => asg) s xs ys).2 = none ∧
    (delRowsOf asg Dold (Dold - xs.length)).Perm
      (tailEntries asg Dold (Dold - xs.length)) ∧
    List.Sorted (· < ·) (delRowsOf asg Dold (Dold - xs.length)) ∧
    (delRowsOf asg Dold (Dold - xs.length)).length = Dold - xs.length ∧
    (pushData (fun _ => asg) s xs ys).1.ids
      = keepNonDeleted s.ids (delRowsOf asg Dold (Dold - xs.length)) ∧
    (pushData (fun _ => asg) s xs ys).1.ids.length = xs.length ∧
    (pushData (fun _ => asg) s xs ys).1.good
      = (keepNonDeleted s.good (delRowsOf asg Dold (Dold - xs.length))).map
          (· + 1) ∧
    (pushData (fun _ => asg) s xs ys).1.good.length = xs.length ∧
    (pushData (fun _ => asg) s xs ys).1.dataX
      = (pushAndRearrangeAxis Dold s.dataX asg
          (xs ++ List.replicate (Dold - xs.length) BLIND_VALUE)).map
          (fun f => keepNonDeleted f (delRowsOf asg Dold (Dold - xs.length))) ∧
    (pushData (fun _ => asg) s xs ys).1.dataY
      = (pushAndRearrangeAxis Dold s.dataY asg
          (ys ++ List.replicate (Dold - xs.length) BLIND_VALUE)).map
          (fun f => keepNonDeleted f (delRowsOf asg Dold (Dold - xs.length))) ∧
    (pushData (fun _ => asg) s xs ys).1.dataX.length = 3 ∧
    (∀ f ∈ (pushData (fun _ => asg) s xs ys).1.dataX,
      f.length = xs.length) ∧
    (pushData (fun _ => asg) s xs ys).1.dataY.length = 3 ∧
    (∀ f ∈ (pushData (fun _ => asg) s xs ys).1.dataY,
      f.length = xs.length) := by
  have hdisp := pushData_eq_diff_gtz (fun _ => asg) s xs ys Dold hInv hxs hys
    hpos
  have hdim : (s.dataX.getD 0 []).length = Dold := hInv.frame0_length
  have hkd : Dold - xs.length ≤ Dold := by omega
  have hD : 0 < Dold := by omega
  have hsorted := delRowsOf_sorted_lt asg Dold (Dold - xs.length) hperm hkd
  have hltd := delRowsOf_lt asg Dold (Dold - xs.length) hperm hkd hD
  have hdlen := delRowsOf_length asg Dold (Dold - xs.length)
  have hkeep : (fun f : List Int =>
        removeElemsFromVector f (delRowsOf asg Dold (Dold - xs.length)))
      = (fun f => keepNonDeleted f (delRowsOf asg Dold (Dold - xs.length))) :=
    funext (fun f => removeElemsFromVector_eq_keep f _ hsorted)
  have hstate : push_data_intern_diff_gtz (fun _ => asg)
        (Dold - xs.length) s xs ys
      = { s with
          dataX := (pushAndRearrangeAxis (s.dataX.getD 0 []).length s.dataX
              asg (xs ++ List.replicate (Dold - xs.length) BLIND_VALUE)).map
              (fun f => removeElemsFromVector f
                (delRowsOf asg (s.dataX.getD 0 []).length (Dold - xs.length))),
          dataY := (pushAndRearrangeAxis (s.dataX.getD 0 []).length s.dataY
              asg (ys ++ List.replicate (Dold - xs.length) BLIND_VALUE)).map
              (fun f => removeElemsFromVector f
                (delRowsOf asg (s.dataX.getD 0 []).length (Dold - xs.length))),
          ids := removeElemsFromVector s.ids
            (delRowsOf asg (s.dataX.getD 0 []).length (Dold - xs.length)),
          assignment := asg,
          good := (removeElemsFromVector s.good
            (delRowsOf asg (s.dataX.getD 0 []).length
              (Dold - xs.length))).map (· + 1) } := rfl
  rw [hdisp, hstate, hdim]
  obtain ⟨a, b, c, hX⟩ := List.length_eq_three.mp hInv.1
  obtain ⟨d, e, f, hY⟩ := List.length_eq_three.mp hInv.2.1
  have hlb : b.length = Dold := hInv.2.2.1 b (by rw [hX]; simp)
  have hlc : c.length = Dold := hInv.2.2.1 c (by rw [hX]; simp)
  have hle : e.length = Dold := hInv.2.2.2.1 e (by rw [hY]; simp)
  have hlf : f.length = Dold := hInv.2.2.2.1 f (by rw [hY]; simp)
  have hlids : s.ids.length = Dold := hInv.2.2.2.2.1
  have hlgood : s.good.length = Dold := hInv.2.2.2.2.2
  have hremlen : ∀ v : List Int, v.length = Dold →
      (removeElemsFromVector v
        (delRowsOf asg Dold (Dold - xs.length))).length = xs.length := by
    intro v hv
    rw [removeElemsFromVector_length v _ hsorted
      (fun r hr => by rw [hv]; exact hltd r hr), hv, hdlen]
    omega
  have hpX : pushAndRearrangeAxis Dold s.dataX asg
      (xs ++ List.replicate (Dold - xs.length) BLIND_VALUE)
      = [b, c, arrange Dold asg
          (xs ++ List.replicate (Dold - xs.length) BLIND_VALUE)] := by
    rw [hX]
    rfl
  have hpY : pushAndRearrangeAxis Dold s.dataY asg
      (ys ++ List.replicate (Dold - xs.length) BLIND_VALUE)
      = [e, f, arrange Dold asg
          (ys ++ List.replicate (Dold - xs.length) BLIND_VALUE)] := by
    rw [hY]
    rfl
  refine ⟨rfl, delRowsOf_perm asg Dold (Dold - xs.length), hsorted, hdlen,
    ?_, ?_, ?_, ?_, ?_, ?_, ?_, ?_, ?_, ?_⟩
  · exact removeElemsFromVector_eq_keep s.ids _ hsorted
  · exact hremlen s.ids hlids
  · rw [removeElemsFromVector_eq_keep s.good _ hsorted]
  · rw [List.length_map]
    exact hremlen s.good hlgood
  · rw [← hkeep]
  · rw [← hkeep]
  · rw [hpX]
    rfl
  · intro g hg
    rw [hpX] at hg
    simp only [List.map_cons, List.map_nil, List.mem_cons,
      List.not_mem_nil, or_false] at hg
    rcases hg with rfl | rfl | rfl
    · exact hremlen b hlb
    · exact hremlen c hlc
    · exact hremlen _ (length_arrange Dold asg _)
  · rw [hpY]
    rfl
  · intro g hg
    rw [hpY] at hg
    simp only [List.map_cons, List.map_nil, List.mem_cons,
      List.not_mem_nil, or_false] at hg
    rcases hg with rfl | rfl | rfl
    · exact hremlen e hle
    · exact hremlen f hlf
    · exact hremlen _ (length_arrange Dold asg _)

theorem C6_witness :
    (Inv ⟨[[5, 6], [7, 8], [9, 10]], [[0, 1], [2, 3], [4, 5]],
        [7, 9], [0, 1], [1, 2]⟩ 2 ∧
      IsPermOf [1, 0] 2 ∧ [(20 : Int)].length < 2 ∧
      [(21 : Int)].length = [(20 : Int)].length ∧ 0 < [(20 : Int)].length) ∧
    ((pushData (fun _ => [1, 0]) ⟨[[5, 6], [7, 8], [9, 10]],
        [[0, 1], [2, 3], [4, 5]], [7, 9], [0, 1], [1, 2]⟩ [20] [21]).2
        = none ∧
      (delRowsOf [1, 0] 2 (2 - [(20 : Int)].length)).Perm
        (tailEntries [1, 0] 2 (2 - [(20 : Int)].length)) ∧
      List.Sorted (· < ·) (delRowsOf [1, 0] 2 (2 - [(20 : Int)].length)) ∧
      (delRowsOf [1, 0] 2 (2 - [(20 : Int)].length)).length
        = 2 - [(20 : Int)].length ∧
      (pushData (fun _ => [1, 0]) ⟨[[5, 6], [7, 8], [9, 10]],
        [[0, 1], [2, 3], [4, 5]], [7, 9], [0, 1], [1, 2]⟩ [20] [21]).1.ids
        = keepNonDeleted [(7 : Int), 9]
            (delRowsOf [1, 0] 2 (2 - [(20 : Int)].length)) ∧
      (pushData (fun _ => [1, 0]) ⟨[[5, 6], [7, 8], [9, 10]],
        [[0, 1], [2, 3], [4, 5]], [7, 9], [0, 1], [1, 2]⟩
        [20] [21]).1.ids.length = [(20 : Int)].length ∧
      (pushData (fun _ => [1, 0]) ⟨[[5, 6], [7, 8], [9, 10]],
        [[0, 1], [2, 3], [4, 5]], [7, 9], [0, 1], [1, 2]⟩ [20] [21]).1.good
        = (keepNonDeleted [(1 : Int), 2]
            (delRowsOf [1, 0] 2 (2 - [(20 : Int)].length))).map (· + 1) ∧
      (pushData (fun _ => [1, 0]) ⟨[[5, 6], [7, 8], [9, 10]],
        [[0, 1], [2, 3], [4, 5]], [7, 9], [0, 1], [1, 2]⟩
        [20] [21]).1.good.length = [(20 : Int)].length ∧
      (pushData (fun _ => [1, 0]) ⟨[[5, 6], [7, 8], [9, 10]],
        [[0, 1], [2, 3], [4, 5]], [7, 9], [0, 1], [1, 2]⟩ [20] [21]).1.dataX
        = (pushAndRearrangeAxis 2 [[(5 : Int), 6], [7, 8], [9, 10]] [1, 0]
            ([20] ++ List.replicate (2 - [(20 : Int)].length) BLIND_VALUE)).map
            (fun f => keepNonDeleted f
              (delRowsOf [1, 0] 2 (2 - [(20 : Int)].length))) ∧
      (pushData (fun _ => [1, 0]) ⟨[[5, 6], [7, 8], [9, 10]],
        [[0, 1], [2, 3], [4, 5]], [7, 9], [0, 1], [1, 2]⟩ [20] [21]).1.dataY
        = (pushAndRearrangeAxis 2 [[(0 : Int), 1], [2, 3], [4, 5]] [1, 0]
            ([21] ++ List.replicate (2 - [(20 : Int)].length) BLIND_VALUE)).map
            (fun f => keepNonDeleted f
              (delRowsOf [1, 0] 2 (2 - [(20 : Int)].length))) ∧
      (pushData (fun _ => [1, 0]) ⟨[[5, 6], [7, 8], [9, 10]],
        [[0, 1], [2, 3], [4, 5]], [7, 9], [0, 1], [1, 2]⟩
        [20] [21]).1.dataX.length = 3 ∧
      (∀ f ∈ (pushData (fun _ => [1, 0]) ⟨[[5, 6], [7, 8], [9, 10]],
          [[0, 1], [2, 3], [4, 5]], [7, 9], [0, 1], [1, 2]⟩
          [20] [21]).1.dataX, f.length = [(20 : Int)].length) ∧
      (pushData (fun _ => [1, 0]) ⟨[[5, 6], [7, 8], [9, 10]],
        [[0, 1], [2, 3], [4, 5]], [7, 9], [0, 1], [1, 2]⟩
        [20] [21]).1.dataY.length = 3 ∧
      (∀ f ∈ (pushData (fun _ => [1, 0]) ⟨[[5, 6], [7, 8], [9, 10]],
          [[0, 1], [2, 3], [4, 5]], [7, 9], [0, 1], [1, 2]⟩
          [20] [21]).1.dataY, f.length = [(20 : Int)].length)) :=
  ⟨⟨by decide, by decide, by decide, rfl, by decide⟩,
    C6_shrink_deletes_sentinel_slots [1, 0] ⟨[[5, 6], [7, 8], [9, 10]],
      [[0, 1], [2, 3], [4, 5]], [7, 9], [0, 1], [1, 2]⟩ [20] [21] 2
      (by decide) (by decide) (by decide) rfl (by decide)⟩

/-! ## Invariant preservation helpers (for the slot-count claim) -/

theorem length_pushAndRearrangeAxis (dim : Nat) (d : List (List Int))
    (asg : List Nat) (newD : List Int) (h3 : d.length = 3) :
    (pushAndRearrangeAxis dim d asg newD).length = 3 := by
  unfold pushAndRearrangeAxis
  rw [List.length_tail, List.length_append, h3]
  rfl

theorem frames_pushAndRearrangeAxis (dim : Nat) (d : List (List Int))
    (asg : List Nat) (newD : List Int)
    (hf : ∀ f ∈ d, f.length = dim) :
    ∀ f ∈ pushAndRearrangeAxis dim d asg newD, f.length = dim := by
  intro f hmem
  have h2 := List.mem_of_mem_tail hmem
  rcases List.mem_append.mp h2 with h | h
  · exact hf f h
  · rw [List.mem_singleton.mp h]
    exact length_arrange dim asg newD

theorem hung_perm_on_distmat (hung : List (List Int) → List Nat)
    (hhung : ∀ m, IsPermOf (hung m) m.length) (dim n : Nat) (hdim : dim = n)
    (dX dY : List (List Int)) (g g2 : List Int) (bX bY : List Int) :
    IsPermOf (hung (createDistMat (predict dim dX g) (predict dim dY g2)
      bX bY)) n := by
  subst hdim
  have h2 := hhung (createDistMat (predict dim dX g) (predict dim dY g2) bX bY)
  rwa [length_createDistMat, length_predict] at h2

theorem Inv_first_step (xs ys : List Int) (hxy : xs.length = ys.length) :
    Inv (push_data_intern_first_step freshPT xs ys) xs.length := by
  have hstate : push_data_intern_first_step freshPT xs ys
      = ⟨[xs, xs, xs], [ys, ys, ys],
          (List.range xs.length).map (fun i => Int.ofNat i), [],
          List.replicate xs.length 1⟩ := by
    simp [push_data_intern_first_step, freshPT]
  rw [hstate]
  refine ⟨rfl, rfl, ?_, ?_, by simp, by simp⟩
  · intro f hf
    simp only [List.mem_cons, List.not_mem_nil, or_false] at hf
    rcases hf with rfl | rfl | rfl <;> rfl
  · intro f hf
    simp only [List.mem_cons, List.not_mem_nil, or_false] at hf
    rcases hf with rfl | rfl | rfl <;> exact hxy.symm

theorem Inv_diff_zero (hung : List (List Int) → List Nat) (s : PTState)
    (N : Nat) (xs ys : List Int) (hInv : Inv s N)
    (_hxs : xs.length = N) (_hys : ys.length = N) :
    Inv (push_data_intern_diff_zero hung N s xs ys) N := by
  have hpack : ∃ A : List Nat,
      push_data_intern_diff_zero hung N s xs ys
        = { s with
            dataX := pushAndRearrangeAxis N s.dataX A xs,
            dataY := pushAndRearrangeAxis N s.dataY A ys,
            assignment := A,
            good := s.good.map (· + 1) } := ⟨_, rfl⟩
  obtain ⟨A, hA⟩ := hpack
  rw [hA]
  exact ⟨length_pushAndRearrangeAxis N s.dataX A xs hInv.1,
    length_pushAndRearrangeAxis N s.dataY A ys hInv.2.1,
    frames_pushAndRearrangeAxis N s.dataX A xs hInv.2.2.1,
    frames_pushAndRearrangeAxis N s.dataY A ys hInv.2.2.2.1,
    hInv.2.2.2.2.1,
    by simpa using hInv.2.2.2.2.2⟩

theorem Inv_diff_gtz (hung : List (List Int) → List Nat)
    (hhung : ∀ m, IsPermOf (hung m) m.length) (s : PTState) (N : Nat)
    (xs ys : List Int) (hInv : Inv s N)
    (hlt : xs.length < N) (hpos : 0 < xs.length) :
    Inv (push_data_intern_diff_gtz hung (N - xs.length) s xs ys)
      xs.length := by
  have hdim : (s.dataX.getD 0 []).length = N := hInv.frame0_length
  have hpack : ∃ A : List Nat, IsPermOf A N ∧
      push_data_intern_diff_gtz hung (N - xs.length) s xs ys
        = { s with
            dataX := (pushAndRearrangeAxis (s.dataX.getD 0 []).length
                s.dataX A
                (xs ++ List.replicate (N - xs.length) BLIND_VALUE)).map
                (fun f => removeElemsFromVector f
                  (delRowsOf A (s.dataX.getD 0 []).length (N - xs.length))),
            dataY := (pushAndRearrangeAxis (s.dataX.getD 0 []).length
                s.dataY A
                (ys ++ List.replicate (N - xs.length) BLIND_VALUE)).map
                (fun f => removeElemsFromVector f
                  (delRowsOf A (s.dataX.getD 0 []).length (N - xs.length))),
            ids := removeElemsFromVector s.ids
              (delRowsOf A (s.dataX.getD 0 []).length (N - xs.length)),
            assignment := A,
            good := (removeElemsFromVector s.good
              (delRowsOf A (s.dataX.getD 0 []).length
                (N - xs.length))).map (· + 1) } := by
    refine ⟨_, ?_, rfl⟩
    exact hung_perm_on_distmat hung hhung (s.dataX.getD 0 []).length N hdim
      s.dataX s.dataY s.good s.good
      (xs ++ List.replicate (N - xs.length) BLIND_VALUE)
      (ys ++ List.replicate (N - xs.length) BLIND_VALUE)
  obtain ⟨A, hperm, hA⟩ := hpack
  rw [hA, hdim]
  have hkd : N - xs.length ≤ N := by omega
  have hD : 0 < N := by omega
  have hsorted := delRowsOf_sorted_lt A N (N - xs.length) hperm hkd
  have hltd := delRowsOf_lt A N (N - xs.length) hperm hkd hD
  have hdlen := delRowsOf_length A N (N - xs.length)
  have hremlen : ∀ v : List Int, v.length = N →
      (removeElemsFromVector v
        (delRowsOf A N (N - xs.length))).length = xs.length := by
    intro v hv
    rw [removeElemsFromVector_length v _ hsorted
      (fun r hr => by rw [hv]; exact hltd r hr), hv, hdlen]
    omega
  refine ⟨?_, ?_, ?_, ?_, ?_, ?_⟩
  · rw [List.length_map]
    exact length_pushAndRearrangeAxis N s.dataX A _ hInv.1
  · rw [List.length_map]
    exact length_pushAndRearrangeAxis N s.dataY A _ hInv.2.1
  · intro f hf
    rcases List.mem_map.mp hf with ⟨g, hg, rfl⟩
    exact hremlen g
      (frames_pushAndRearrangeAxis N s.dataX A _ hInv.2.2.1 g hg)
  · intro f hf
    rcases List.mem_map.mp hf with ⟨g, hg, rfl⟩
    exact hremlen g
      (frames_pushAndRearrangeAxis N s.dataY A _ hInv.2.2.2.1 g hg)
  · exact hremlen s.ids hInv.2.2.2.2.1
  · rw [List.length_map]
    exact hremlen s.good hInv.2.2.2.2.2

theorem Inv_diff_ltz (hung : List (List Int) → List Nat) (s : PTState)
    (N : Nat) (xs ys : List Int) (hInv : Inv s N)
    (hgt : N < xs.length) (_hpos : 0 < N) :
    Inv (push_data_intern_diff_ltz hung (xs.length - N) s xs ys)
      xs.length := by
  obtain ⟨a, b, c, hX⟩ := List.length_eq_three.mp hInv.1
  obtain ⟨d, e, f, hY⟩ := List.length_eq_three.mp hInv.2.1
  have hla : a.length = N := hInv.2.2.1 a (by rw [hX]; simp)
  have hlb : b.length = N := hInv.2.2.1 b (by rw [hX]; simp)
  have hlc : c.length = N := hInv.2.2.1 c (by rw [hX]; simp)
  have hld : d.length = N := hInv.2.2.2.1 d (by rw [hY]; simp)
  have hle : e.length = N := hInv.2.2.2.1 e (by rw [hY]; simp)
  have hlf : f.length = N := hInv.2.2.2.1 f (by rw [hY]; simp)
  have hpack : ∃ (A : List Nat) (colsX colsY : List Int),
      push_data_intern_diff_ltz hung (xs.length - N) s xs ys
        = { s with
            dataX := pushAndRearrangeAxis
              ((s.dataX.map (fun f2 => f2 ++ List.replicate (xs.length - N)
                BLIND_VALUE)).getD 0 []).length
              ((s.dataX.map (fun f2 => f2 ++ List.replicate (xs.length - N)
                BLIND_VALUE)).map (fun f2 => backfill f2
                  (((s.dataX.map (fun f3 => f3 ++ List.replicate
                    (xs.length - N) BLIND_VALUE)).getD 0 []).length
                    - (xs.length - N)) colsX (xs.length - N)))
              A xs,
            dataY := pushAndRearrangeAxis
              ((s.dataX.map (fun f2 => f2 ++ List.replicate (xs.length - N)
                BLIND_VALUE)).getD 0 []).length
              ((s.dataY.map (fun f2 => f2 ++ List.replicate (xs.length - N)
                BLIND_VALUE)).map (fun f2 => backfill f2
                  (((s.dataX.map (fun f3 => f3 ++ List.replicate
                    (xs.length - N) BLIND_VALUE)).getD 0 []).length
                    - (xs.length - N)) colsY (xs.length - N)))
              A ys,
            ids := s.ids ++ get_n_new_ids s.ids (xs.length - N),
            assignment := A,
            good := (s.good ++ List.replicate (xs.length - N) 0).map
              (· + 1) } := ⟨_, _, _, rfl⟩
  obtain ⟨A, colsX, colsY, hA⟩ := hpack
  rw [hA]
  have hdimp : ((s.dataX.map (fun f2 => f2 ++ List.replicate (xs.length - N)
      BLIND_VALUE)).getD 0 []).length = xs.length := by
    rw [hX]
    simp only [List.map_cons, List.getD_cons_zero, List.length_append,
      List.length_replicate, hla]
    omega
  refine ⟨?_, ?_, ?_, ?_, ?_, ?_⟩
  · exact length_pushAndRearrangeAxis _ _ _ _
      (by rw [List.length_map, List.length_map, hInv.1])
  · exact length_pushAndRearrangeAxis _ _ _ _
      (by rw [List.length_map, List.length_map, hInv.2.1])
  · intro f2 hf2
    refine (frames_pushAndRearrangeAxis _ _ A xs ?_ f2 hf2).trans hdimp
    intro g hg
    rcases List.mem_map.mp hg with ⟨g1, hg1, rfl⟩
    rcases List.mem_map.mp hg1 with ⟨g2, hg2, rfl⟩
    rw [length_backfill, List.length_append, hInv.2.2.1 g2 hg2,
      List.length_replicate, hdimp]
    omega
  · intro f2 hf2
    refine (frames_pushAndRearrangeAxis _ _ A ys ?_ f2 hf2).trans hdimp
    intro g hg
    rcases List.mem_map.mp hg with ⟨g1, hg1, rfl⟩
    rcases List.mem_map.mp hg1 with ⟨g2, hg2, rfl⟩
    rw [length_backfill, List.length_append, hInv.2.2.2.1 g2 hg2,
      List.length_replicate, hdimp]
    omega
  · rw [List.length_append, hInv.2.2.2.2.1, get_n_new_ids_length]
    omega
  · rw [List.length_map, List.length_append, hInv.2.2.2.2.2,
      List.length_replicate]
    omega

/-- C2.  After every successful `pushData` tick — on a fresh tracker or
on one already tracking `N > 0` slots with the invariant, with a solver
honouring the permutation contract — the four parallel arrays (history-X
frames, history-Y frames, identities, freshness) all have the same slot
count, both history deques hold exactly 3 frames of that many scalars,
and the common slot count equals the size of the batch just pushed. -/
theorem C2_tick_preserves_invariant (hung : List (List Int) → List Nat)
    (hhung : ∀ m, IsPermOf (hung m) m.length) (s : PTState)
    (xs ys : List Int) (hWF : WF s) (hpos : 0 < xs.length)
    (hxy : xs.length = ys.length) :
    (pushData hung s xs ys).2 = none ∧
      Inv (pushData hung s xs ys).1 xs.length := by
  rcases hWF with rfl | ⟨N, hN, hInv⟩
  · rw [pushData_eq_first hung freshPT xs ys rfl hpos hxy]
    exact ⟨rfl, Inv_first_step xs ys hxy⟩
  · rcases Nat.lt_trichotomy xs.length N with hlt | heq | hgt
    · rw [pushData_eq_diff_gtz hung s xs ys N hInv hlt hxy.symm hpos]
      exact ⟨rfl, Inv_diff_gtz hung hhung s N xs ys hInv hlt hpos⟩
    · rw [pushData_eq_diff_zero hung s xs ys N hInv heq
        (hxy.symm.trans heq) hN]
      refine ⟨rfl, ?_⟩
      rw [heq]
      exact Inv_diff_zero hung s N xs ys hInv heq (hxy.symm.trans heq)
    · rw [pushData_eq_diff_ltz hung s xs ys N hInv hgt hxy.symm hN]
      exact ⟨rfl, Inv_diff_ltz hung s N xs ys hInv hgt hN⟩

theorem C2_witness :
    ((∀ m : List (List Int),
        IsPermOf ((fun m2 : List (List Int) => List.range m2.length) m)
          m.length) ∧
      WF freshPT ∧ 0 < [(5 : Int)].length ∧
      [(5 : Int)].length = [(6 : Int)].length) ∧
    ((pushData (fun m => List.range m.length) freshPT [5] [6]).2 = none ∧
      Inv (pushData (fun m => List.range m.length) freshPT [5] [6]).1
        [(5 : Int)].length) :=
  ⟨⟨fun _ => List.Perm.refl _, Or.inl rfl, Nat.one_pos, rfl⟩,
    C2_tick_preserves_invariant (fun m => List.range m.length)
      (fun _ => List.Perm.refl _) freshPT [5] [6] (Or.inl rfl)
      Nat.one_pos rfl⟩

end PositionTracker
